import Mathlib

/- Shallow embedding of the scarab interpreter core (src/libscarab): value
   model (value.h / value.c / record.c), list utilities (list.c), evaluator
   (eval.c / eval.h) with the builtin functions (builtins.c), tokenizer
   (tokenizer.c), and the process-wide symbol interning state (value.c,
   relying on g_intern_string). -/

namespace Scarab

/- Tags for the native (C) builtin functions registered by
   _register_builtins in builtins.c. -/
inductive Builtin where
  | add
  | setB
  | callMethod
  | atomQ
  | defB
  | defDirect
  | defMethod
  | evalB
  | first
  | getKey
  | inspectB
  | inspectDirect
  | lambda
  | letB
  | make
  | printB
  | quoteB
  | recordTypeB
  | rest
deriving Repr, DecidableEq

/- KhValue (value.h): tagged variant. A function value inlines the KhFunc
   fields (eval.c struct _KhFunc): name, native tag or Scarab body form,
   arity range (maxA = none models the LONG_MAX "unbounded" sentinel),
   parameter names, captured scope (index into the context scope heap) and
   the is_direct flag. A record type carries an allocation identity (id)
   because the method table and KH_VALUE_TYPE compare record types by
   pointer; a record carries its type id together with the type keys and
   its values array (record.c). -/
inductive Val where
  | nil
  | int (n : Int)
  | str (s : String)
  | sym (name : String)
  | cell (left right : Val)
  | quoted (v : Val)
  | func (name : String) (native : Option Builtin) (body : Val)
      (minA : Nat) (maxA : Option Nat) (argnames : List String)
      (scopeId : Nat) (isDirect : Bool)
  | recordType (id : Nat) (keys : List String)
  | record (tyId : Nat) (keys : List String) (vals : List Val)
deriving Repr

/- KH_VALUE_TYPE (value.h): the type token of a value is the basic-type
   enum for basic values and the record-type identity for records. -/
inductive TypeTok where
  | basicNil
  | basicInt
  | basicStr
  | basicCell
  | basicSym
  | basicFunc
  | basicQuoted
  | basicRecordType
  | recTy (id : Nat)
deriving Repr, DecidableEq

def typeOf : Val → TypeTok
  | .nil => .basicNil
  | .int _ => .basicInt
  | .str _ => .basicStr
  | .sym _ => .basicSym
  | .cell _ _ => .basicCell
  | .quoted _ => .basicQuoted
  | .func .. => .basicFunc
  | .recordType .. => .basicRecordType
  | .record tyId _ _ => .recTy tyId

def isFunc : Val → Bool
  | .func .. => true
  | _ => false

def isCell : Val → Bool
  | .cell _ _ => true
  | _ => false

/- A scope (eval.c struct _KhScope): parent link plus a variable table.
   kh_scope_add uses g_hash_table_replace; we model the table as an
   association list where an add conses a new entry and lookups take the
   first match, which is observably the same replace semantics. -/
structure ScopeData where
  parent : Option Nat
  table : List (String × Val)
deriving Repr

/- KhContext (eval.c struct _KhContext): scope heap (scopes are compared
   and linked by identity, modelled as indices into this list), the global
   scope, the active scope, the last-error slot, the per-context method
   table (declared in eval.h; its implementation is not under src, see
   methodAdd below) and a counter handing out record-type identities. -/
structure Ctx where
  scopes : List ScopeData
  cur : Nat
  global : Nat
  err : Option Val
  methods : List ((TypeTok × String) × Val)
  nextTyId : Nat
deriving Repr

/- Result of an evaluation step: ok value-and-context, NULL-with-error-set
   (the universal failure protocol, KH_FAIL / _REQUIRE), or a fatal
   internal invariant break (a failed checked cast _KH_CHECKED_CAST or an
   out-of-bounds argv access). -/
inductive Step (α : Type) where
  | ok (a : α) (c : Ctx)
  | fail (c : Ctx)
  | fatal
deriving Repr

/- KH_ERROR (eval.h): the error value is (SYMBOL kind, STRING message). -/
def errVal (kind msg : String) : Val :=
  .cell (.sym kind) (.cell (.str msg) .nil)

def setError (c : Ctx) (kind msg : String) : Ctx :=
  { c with err := some (errVal kind msg) }

/- kh_scope_add (eval.c), on scope sid of the heap. -/
def scopeAdd (c : Ctx) (sid : Nat) (name : String) (v : Val) : Ctx :=
  { c with
    scopes := c.scopes.modify (fun sd => { sd with table := (name, v) :: sd.table }) sid }

def tableLookup : List (String × Val) → String → Option Val
  | [], _ => none
  | (n, v) :: rest, name => if n = name then some v else tableLookup rest name

/- kh_scope_lookup (eval.c): walk the parent chain. The C loop walks raw
   parent pointers; in every reachable heap a parent index is strictly
   smaller than the scope index (scopes are only created with an already
   existing parent), so a fuel of sid + 1 always suffices. -/
def lookupChain (c : Ctx) : Nat → Nat → String → Option Val
  | 0, _, _ => none
  | fuel + 1, sid, name =>
    match c.scopes.get? sid with
    | none => none
    | some sd =>
      match tableLookup sd.table name with
      | some v => some v
      | none =>
        match sd.parent with
        | none => none
        | some p => lookupChain c fuel p name

def scopeLookup (c : Ctx) (sid : Nat) (name : String) : Option Val :=
  lookupChain c (sid + 1) sid name

/- kh_scope_new via kh_context_new_scope: allocate a scope in the heap. -/
def scopeNew (c : Ctx) (parent : Option Nat) : Nat × Ctx :=
  (c.scopes.length, { c with scopes := c.scopes ++ [⟨parent, []⟩] })

/- g_strescape (used by _inspect_string in value.c, with no exceptions):
   works byte by byte over the UTF-8 encoding; named escapes for
   backspace, form feed, newline, carriage return, tab, vertical tab,
   double quote and backslash; three-digit octal escapes for the other
   bytes outside the printable ASCII range. -/
def octDigit (n : Nat) : Char := Char.ofNat (48 + n % 8)

/- UTF-8 encoding of one code point, as the byte values g_strescape sees. -/
def utf8Bytes (ch : Char) : List Nat :=
  let n := ch.toNat
  if n < 128 then [n]
  else if n < 2048 then [192 + n / 64, 128 + n % 64]
  else if n < 65536 then [224 + n / 4096, 128 + n / 64 % 64, 128 + n % 64]
  else [240 + n / 262144, 128 + n / 4096 % 64, 128 + n / 64 % 64, 128 + n % 64]

def escByte (n : Nat) : String :=
  if n = 8 then "\\b"
  else if n = 12 then "\\f"
  else if n = 10 then "\\n"
  else if n = 13 then "\\r"
  else if n = 9 then "\\t"
  else if n = 11 then "\\v"
  else if n = 34 then "\\\""
  else if n = 92 then "\\\\"
  else if n < 32 || 127 <= n then
    String.mk [Char.ofNat 92, octDigit (n / 64), octDigit (n / 8), octDigit n]
  else String.mk [Char.ofNat n]

def escGString (s : String) : String :=
  String.join ((s.data.flatMap utf8Bytes).map escByte)

/- kh_inspect (value.c _inspect and helpers). inspectInnerF renders the
   interior of a cell chain (_inspect_cell with in_cell true after the
   first call) and inspectPairsF the key/value pairs of a record
   (kh_record_foreach with _inspect_record_pair_cb; a constructed record
   always has exactly one value per key). The recursion is driven by fuel
   so that it is structural; kh_inspect seeds the fuel with sizeOf of the
   value, which bounds the recursion depth, so the zero-fuel arms are
   never reached from kh_inspect. -/
mutual

def inspectF : Nat → Val → String
  | 0, _ => ""
  | fuel + 1, v =>
    match v with
    | .nil => "nil"
    | .int n => toString n
    | .str s => "\"" ++ escGString s ++ "\""
    | .sym s => s
    | .cell l r => "(" ++ inspectInnerF fuel l r ++ ")"
    | .quoted inner => "(quote " ++ inspectF fuel inner ++ ")"
    | .func name _ _ _ _ _ _ _ => "*function \"" ++ name ++ "\"*"
    | .recordType _ _ => "*record-type*"
    | .record _ keys vals => "(*record" ++ inspectPairsF fuel keys vals ++ ")"

def inspectInnerF : Nat → Val → Val → String
  | 0, _, _ => ""
  | fuel + 1, l, r =>
    match r with
    | .cell rl rr => inspectF fuel l ++ " " ++ inspectInnerF fuel rl rr
    | .nil => inspectF fuel l
    | _ => inspectF fuel l ++ " . " ++ inspectF fuel r

def inspectPairsF : Nat → List String → List Val → String
  | 0, _, _ => ""
  | fuel + 1, k :: ks, v :: vs => " " ++ k ++ " " ++ inspectF fuel v ++ inspectPairsF fuel ks vs
  | _ + 1, _, _ => ""

end

/- Structural size of a value, used only to seed the inspect fuel. -/
mutual

def valSize : Val → Nat
  | .cell l r => 1 + valSize l + valSize r
  | .quoted v => 1 + valSize v
  | .record _ _ vals => 1 + valListSize vals
  | _ => 1

def valListSize : List Val → Nat
  | [] => 0
  | v :: vs => 1 + valSize v + valListSize vs

end

def kh_inspect (v : Val) : String := inspectF (valSize v) v

/- kh_list_length (list.c): counts cells until nil. KH_ITERATE applies the
   checked cast KH_CELL to every tail, so a dotted list is a fatal
   invariant break: modelled as none. -/
def kh_list_length : Val → Option Nat
  | .nil => some 0
  | .cell _ r => (kh_list_length r).map (· + 1)
  | _ => none

/- The elements collected by KH_ITERATE, with the same fatal behaviour on
   a dotted list. -/
def listElems : Val → Option (List Val)
  | .nil => some []
  | .cell l r => (listElems r).map (l :: ·)
  | _ => none

def isList (v : Val) : Bool := (kh_list_length v).isSome

/-- Modelled from the spec: kh_is_atom is declared in eval.h and used by
the atom? builtin, but its definition is not among the files under src.
Section 4.1 of the spec defines the atomicity predicate: a value is atomic
iff it is nil, int, string, function, record-type, record, or quoted. -/
def kh_is_atom : Val → Bool
  | .nil | .int _ | .str _ | .func .. | .recordType .. | .record .. | .quoted _ => true
  | .sym _ | .cell _ _ => false

/- KH_SYMBOL / KH_STRING checked casts (value.h): fatal on mismatch. -/
def symName : Val → Option String
  | .sym s => some s
  | _ => none

def strVal : Val → Option String
  | .str s => some s
  | _ => none

/- The let builtin (builtins.c) reads a binding name with
   KH_STRING(...)->value although the parser produces symbols for binding
   names. KhString and KhSymbol have the same layout, a single char* value
   field right after the tag, so with assertions disabled the checked cast
   degenerates to reading the name of either a string or a symbol; any
   other variant yields a garbage pointer, modelled as fatal. -/
def strOrSymName : Val → Option String
  | .str s => some s
  | .sym s => some s
  | _ => none

/- _extract_symbol_list (builtins.c): every element must be a symbol
   (checked cast), and the list must be proper (KH_ITERATE). -/
def symList : Val → Option (List String)
  | .nil => some []
  | .cell (.sym s) r => (symList r).map (s :: ·)
  | _ => none

/- _create_func (builtins.c): min and max arity are both the length of the
   parameter list; the captured scope is the current scope. -/
def createFunc (c : Ctx) (name : String) (argDesc form : Val) (isDirect : Bool) : Option Val :=
  (symList argDesc).map
    (fun names => .func name none form names.length (some names.length) names c.cur isDirect)

/-- Modelled from the spec: kh_method_add and kh_method_lookup are declared
in eval.h and called from builtins.c, but their implementation is not among
the files under src. Per the spec (sections 3, 4.5.6, 9) the method table
maps (type identity, interned method name) to a function, where the type
identity of a record is its record-type value and lookups always pass
KH_VALUE_TYPE of the receiver. Registering under a value that is not a
record type keys the entry by that allocation, which no lookup key can
ever equal; such dead entries are modelled by leaving the table unchanged. -/
def kh_method_add (c : Ctx) (ty : Val) (name : String) (fn : Val) : Ctx :=
  match ty with
  | .recordType id _ => { c with methods := ((TypeTok.recTy id, name), fn) :: c.methods }
  | _ => c

/-- Modelled from the spec: see kh_method_add. -/
def kh_method_lookup (c : Ctx) (tok : TypeTok) (name : String) : Option Val :=
  (c.methods.find? (fun e => e.1 == (tok, name))).map (·.2)

/- kh_record_new_from_values (record.c): copy the provided values (the C
   array is NULL-terminated, modelled by the end of the list, and at most
   num_keys entries are copied) and fill the remaining keys with nil. -/
def kh_record_new_from_values (tyId : Nat) (keys : List String) (values : List Val) : Val :=
  .record tyId keys (values.take keys.length ++ List.replicate (keys.length - values.length) Val.nil)

/- kh_record_get (record.c): scan the keys of the record type in order and
   return the value at the first match; none models the NULL return for an
   absent key. A constructed record has exactly one value per key. -/
def recordLookup : List String → List Val → String → Option Val
  | k :: ks, v :: vs, key => if k = key then some v else recordLookup ks vs key
  | _, _, _ => none

/- The accumulation in the builtin + (builtins.c add): the accumulator is
   a C int, so every addition is truncated to 32 bits even though the
   operands are 64-bit longs. -/
def wrap32 (x : Int) : Int := (x + 2 ^ 31) % 2 ^ 32 - 2 ^ 31

def addLoop : Int → List Val → Option Int
  | acc, [] => some acc
  | acc, .int n :: rest => addLoop (wrap32 (acc + n)) rest
  | _, _ => none

/- kh_apply binds each parameter name to the corresponding argument; the C
   loop indexes argnames by the argument position, so more arguments than
   declared names is an out-of-bounds read (none = fatal). -/
def bindArgs : Ctx → Nat → List String → List Val → Option Ctx
  | c, _, _, [] => some c
  | _, _, [], _ :: _ => none
  | c, sid, n :: ns, v :: vs => bindArgs (scopeAdd c sid n v) sid ns vs

/- The evaluator (eval.c kh_eval / kh_apply) together with the native
   builtin implementations (builtins.c). Recursion is indexed by fuel;
   every function returns fatal when the fuel runs out, and no theorem
   below concludes anything from a fatal outcome. -/
mutual

/- kh_eval (eval.c): atomic values (the record-type variant postdates the
   switch in eval.c and is atomic per kh_is_atom and section 4.1 of the
   spec) return themselves; symbols are looked up in the scope chain;
   quoted values unwrap; a cell evaluates its head and either returns it
   (single-element form), fails with not-func, or applies the function to
   the collected argument forms. -/
def kh_eval : Nat → Ctx → Val → Step Val
  | 0, _, _ => .fatal
  | fuel + 1, c, form =>
    match form with
    | .sym name =>
      match scopeLookup c c.cur name with
      | some v => .ok v c
      | none => .fail (setError c "undefined-variable" name)
    | .quoted v => .ok v c
    | .cell l r =>
      match kh_eval fuel c l with
      | .fatal => .fatal
      | .fail c1 => .fail c1
      | .ok head c1 =>
        match kh_list_length (Val.cell l r) with
        | none => .fatal
        | some formLen =>
          if isFunc head then
            match listElems r with
            | none => .fatal
            | some argv => kh_apply fuel c1 head argv
          else if formLen = 1 then .ok head c1
          else .fail (setError c1 "not-func"
            ("Tried to evaluate " ++ kh_inspect head ++ " as a function"))
    | atomic => .ok atomic c

/- kh_apply (eval.c): evaluate the arguments in place unless the function
   is direct; check the arity against [min_argc, max_argc] (max_argc none
   models the LONG_MAX sentinel) with the three message shapes in source
   order; then run the native implementation or bind the parameters in a
   fresh child of the captured scope and evaluate the body, restoring the
   previous scope only on success. -/
def kh_apply : Nat → Ctx → Val → List Val → Step Val
  | 0, _, _, _ => .fatal
  | fuel + 1, c, fn, argv =>
    match fn with
    | .func name native body minA maxA argnames scopeId isDirect =>
      match (if isDirect then Step.ok argv c else evalArgs fuel c argv) with
      | .fatal => .fatal
      | .fail c1 => .fail c1
      | .ok argv2 c1 =>
        let argc := argv.length
        if argc < minA || (match maxA with | some m => decide (m < argc) | none => false) then
          match maxA with
          | none => .fail (setError c1 "invalid-call"
              ("Called " ++ name ++ " with " ++ toString argc ++ " arguments, expected "
                ++ toString minA ++ " or more"))
          | some m =>
            if minA = m then
              .fail (setError c1 "invalid-call"
                ("Called " ++ name ++ " with " ++ toString argc ++ " arguments, expected "
                  ++ toString minA))
            else
              .fail (setError c1 "invalid-call"
                ("Called " ++ name ++ " with " ++ toString argc ++ " arguments, expected between "
                  ++ toString minA ++ " and " ++ toString m))
        else
          match native with
          | some b => natImpl fuel c1 b argv2
          | none =>
            let prev := c1.cur
            let sid := c1.scopes.length
            let c2 := { (scopeNew c1 (some scopeId)).2 with cur := sid }
            match bindArgs c2 sid argnames argv2 with
            | none => .fatal
            | some c3 =>
              match kh_eval fuel c3 body with
              | .fatal => .fatal
              | .fail c4 => .fail c4
              | .ok v c4 => .ok v { c4 with cur := prev }
    | _ => .fatal

/- Argument evaluation loop of kh_apply (step 1), in order, propagating
   the first failure. -/
def evalArgs : Nat → Ctx → List Val → Step (List Val)
  | 0, _, _ => .fatal
  | _ + 1, c, [] => .ok [] c
  | fuel + 1, c, a :: rest =>
    match kh_eval fuel c a with
    | .fatal => .fatal
    | .fail c1 => .fail c1
    | .ok v c1 =>
      match evalArgs fuel c1 rest with
      | .fatal => .fatal
      | .fail c2 => .fail c2
      | .ok vs c2 => .ok (v :: vs) c2

/- The binding loop of the let builtin (builtins.c let): each binding is a
   cell (name value ...); the name is read through the KH_STRING cast (see
   strOrSymName), the value is evaluated with kh_eval against the current
   scope (the let scope is not made current until after this loop), and
   the pair is added to the let scope. The C code does not check the
   kh_eval result: on failure g_hash_table_replace stores NULL, which
   lookups treat exactly like an absent entry, and the loop continues with
   the context error slot still set; that is modelled by not adding the
   entry. -/
def letLoop : Nat → Ctx → Nat → Val → Step Unit
  | 0, _, _, _ => .fatal
  | _ + 1, c, _, .nil => .ok () c
  | fuel + 1, c, sid, .cell (.cell nameV (.cell valE _)) rest =>
    match strOrSymName nameV with
    | none => .fatal
    | some n =>
        match kh_eval fuel c valE with
        | .fatal => .fatal
        | .fail c1 => letLoop fuel c1 sid rest
        | .ok v c1 => letLoop fuel (scopeAdd c1 sid n v) sid rest
  | _, _, _, _ => .fatal

/- The native builtin implementations (builtins.c), dispatched by tag.
   Out-of-bounds argv reads are fatal; the registered arities make them
   unreachable through kh_apply except where noted. -/
def natImpl : Nat → Ctx → Builtin → List Val → Step Val
  | 0, _, _, _ => .fatal
  | fuel + 1, c, b, argv =>
    match b with
    | .add =>
      match addLoop 0 argv with
      | some acc => .ok (.int acc) c
      | none => .fatal
    | .setB =>
      match argv with
      | nameV :: valueE :: _ =>
        match kh_eval fuel c valueE with
        | .fatal => .fatal
        | .fail c1 => .fail c1
        | .ok v c1 =>
          match symName nameV with
          | none => .fatal
          | some n => .ok .nil (scopeAdd c1 c1.cur n v)
      | _ => .fatal
    | .callMethod =>
      match argv with
      | selfE :: nameV :: restArgs =>
        match kh_eval fuel c selfE with
        | .fatal => .fatal
        | .fail c1 => .fail c1
        | .ok value c1 =>
          match symName nameV with
          | none => .fatal
          | some mname =>
            match kh_method_lookup c1 (typeOf value) mname with
            | none => .fail (setError c1 "undefined-method" mname)
            | some m => kh_apply fuel c1 m (Val.quoted value :: restArgs)
      | _ => .fatal
    | .atomQ =>
      match argv with
      | v :: _ => .ok (if kh_is_atom v then .int 1 else .nil) c
      | _ => .fatal
    | .defB =>
      match argv with
      | nameV :: argDesc :: form :: _ =>
        match symName nameV with
        | none => .fatal
        | some n =>
          match createFunc c n argDesc form false with
          | none => .fatal
          | some fn => .ok .nil (scopeAdd c c.cur n fn)
      | _ => .fatal
    | .defDirect =>
      match argv with
      | nameV :: argDesc :: form :: _ =>
        match symName nameV with
        | none => .fatal
        | some n =>
          match createFunc c n argDesc form true with
          | none => .fatal
          | some fn => .ok .nil (scopeAdd c c.cur n fn)
      | _ => .fatal
    | .defMethod =>
      match argv with
      | tyE :: nameV :: argDesc :: form :: _ =>
        match kh_eval fuel c tyE with
        | .fatal => .fatal
        | .fail c1 => .fail c1
        | .ok ty c1 =>
          match symName nameV with
          | none => .fatal
          | some n =>
            match createFunc c1 n argDesc form false with
            | none => .fatal
            | some fn => .ok .nil (kh_method_add c1 ty n fn)
      | _ => .fatal
    | .evalB =>
      match argv with
      | e :: _ => kh_eval fuel c e
      | _ => .fatal
    | .first =>
      match argv with
      | .cell l _ :: _ => .ok l c
      | _ => .fatal
    | .getKey =>
      match argv with
      | recE :: keyV :: _ =>
        match kh_eval fuel c recE with
        | .fatal => .fatal
        | .fail c1 => .fail c1
        | .ok rv c1 =>
          match rv, strVal keyV with
          | .record _ keys vals, some key =>
            match recordLookup keys vals key with
            | some v => .ok v c1
            | none => .fail (setError c1 "unknown-key" ("No such key " ++ key ++ " in record"))
          | _, _ => .fatal
      | _ => .fatal
    | .inspectB =>
      match argv with
      | v :: _ => .ok (.str (kh_inspect v)) c
      | _ => .fatal
    | .inspectDirect =>
      match argv with
      | v :: _ => .ok (.str (kh_inspect v)) c
      | _ => .fatal
    | .lambda =>
      match argv with
      | argDesc :: form :: _ =>
        match createFunc c "*lambda*" argDesc form false with
        | none => .fatal
        | some fn => .ok fn c
      | _ => .fatal
    | .letB =>
      match argv with
      | bindings :: body :: _ =>
        let sid := c.scopes.length
        let c0 := (scopeNew c (some c.cur)).2
        match letLoop fuel c0 sid bindings with
        | .fatal => .fatal
        | .fail c1 => .fail c1
        | .ok _ c1 =>
          let c2 := { c1 with cur := sid }
          match kh_eval fuel c2 body with
          | .fatal => .fatal
          | .fail c3 => .fail c3
          | .ok v c3 =>
            match c3.scopes.get? c3.cur with
            | none => .fatal
            | some sd =>
              match sd.parent with
              | none => .fatal
              | some p => .ok v { c3 with cur := p }
      | _ => .fatal
    | .make =>
      match argv with
      | tyV :: vals =>
        match tyV with
        | .recordType tyId keys =>
          if vals.length ≠ keys.length then
            .fail (setError c "invalid-make"
              ("Tried to create record with " ++ toString vals.length ++ " values, expected "
                ++ toString keys.length))
          else .ok (kh_record_new_from_values tyId keys vals) c
        | _ => .fatal
      | _ => .fatal
    | .printB => .ok .nil c
    | .quoteB =>
      match argv with
      | v :: _ => .ok v c
      | _ => .fatal
    | .recordTypeB =>
      match argv with
      | nameV :: keysV :: _ =>
        match symName nameV, symList keysV with
        | some n, some keys =>
          let ty := Val.recordType c.nextTyId keys
          let c1 := { c with nextTyId := c.nextTyId + 1 }
          .ok ty (scopeAdd c1 c1.cur n ty)
        | _, _ => .fatal
      | _ => .fatal
    | .rest =>
      match argv with
      | .cell _ r :: _ => .ok r c
      | _ :: _ => .ok .nil c
      | [] => .fatal

end

/- _register_builtins (builtins.c). The _REG macros stringify their first
   argument with #name, and that argument is itself a string literal, so
   each stored function name includes the surrounding double quotes (for
   example, the function bound to the scope key + is named "+" with the
   quotes part of the name). max_argc of LONG_MAX is the none sentinel.
   kh_scope_add inserts entries one at a time; since all keys are distinct
   the resulting table is lookup-equivalent to this list. -/
def builtinsTable : List (String × Val) :=
  [ ("+", .func "\"+\"" (some .add) .nil 1 none [] 0 false),
    ("=", .func "\"=\"" (some .setB) .nil 2 (some 2) [] 0 true),
    ("@", .func "\"@\"" (some .callMethod) .nil 2 none [] 0 true),
    ("atom?", .func "\"atom?\"" (some .atomQ) .nil 1 (some 1) [] 0 false),
    ("def", .func "\"def\"" (some .defB) .nil 3 (some 3) [] 0 true),
    ("def-direct", .func "\"def-direct\"" (some .defDirect) .nil 3 (some 3) [] 0 true),
    ("def-method", .func "\"def-method\"" (some .defMethod) .nil 3 (some 3) [] 0 true),
    ("eval", .func "\"eval\"" (some .evalB) .nil 1 (some 1) [] 0 false),
    ("first", .func "\"first\"" (some .first) .nil 1 (some 1) [] 0 false),
    ("get-key", .func "\"get-key\"" (some .getKey) .nil 2 (some 2) [] 0 true),
    ("inspect", .func "\"inspect\"" (some .inspectB) .nil 1 (some 1) [] 0 false),
    ("inspect-direct", .func "\"inspect-direct\"" (some .inspectDirect) .nil 1 (some 1) [] 0 true),
    ("lambda", .func "\"lambda\"" (some .lambda) .nil 2 (some 2) [] 0 true),
    ("let", .func "\"let\"" (some .letB) .nil 2 (some 2) [] 0 true),
    ("make", .func "\"make\"" (some .make) .nil 1 none [] 0 false),
    ("print", .func "\"print\"" (some .printB) .nil 0 none [] 0 false),
    ("quote", .func "\"quote\"" (some .quoteB) .nil 1 (some 1) [] 0 true),
    ("record-type", .func "\"record-type\"" (some .recordTypeB) .nil 2 (some 2) [] 0 true),
    ("rest", .func "\"rest\"" (some .rest) .nil 1 (some 1) [] 0 false) ]

/- kh_context_new (eval.c): the shared builtins scope is index 0; the
   fresh global scope, index 1, is a child of it and is also the current
   scope; no error; an empty method table. _register_globals is declared
   extern in eval.c but its definition is not among the files under src;
   none of the claims depend on it, so it is not modelled. -/
def initialCtx : Ctx :=
  { scopes := [⟨none, builtinsTable⟩, ⟨some 0, []⟩],
    cur := 1, global := 1, err := none, methods := [], nextTyId := 0 }

/- ------------------------------------------------------------------ -/
/- Tokenizer (tokenizer.c), for string-backed input
   (kh_tokenizer_new_from_string). The C tokenizer keeps a str pointer
   plus a one-character peek buffer; reading at the end of the string
   yields EOF once and sets str to NULL, after which reads fail (there is
   no channel). That is modelled by Option (List Char): some l is live
   input (a peeked-but-unconsumed character is simply the head), some []
   is the state where EOF can still be read once, and none is the
   NULL-str state whose reads fail. -/

/- Token kinds (tokenizer.h): single characters pass through as
   themselves; EOF, IDENTIFIER, NUMBER, STRING. -/
inductive Tok where
  | eof
  | punct (c : Char)
  | number (s : String)
  | ident (s : String)
  | strTok (s : String)
deriving Repr, DecidableEq

/- Outcome of kh_tokenizer_next: a token plus the rest of the input; a
   MISSING_DELIMITER or UNEXPECTED_CHAR syntax error; a failed _read with
   no error set (str already NULL); fatal covers modelling fuel and the
   garbage g_unichar_to_utf8(EOF) paths. -/
inductive TkOut where
  | tok (t : Tok) (rest : Option (List Char))
  | errMissingDelim
  | errUnexpectedChar
  | readFail
  | fatal
deriving Repr, DecidableEq

def readChar : Option (List Char) → Option (Option Char × Option (List Char))
  | none => none
  | some [] => some (none, none)
  | some (c :: r) => some (some c, some r)

def peekChar : Option (List Char) → Option (Option Char)
  | none => none
  | some [] => some none
  | some (c :: _) => some (some c)

def isAsciiDigit (ch : Char) : Bool := 48 ≤ ch.toNat && ch.toNat ≤ 57

def isAsciiAlpha (ch : Char) : Bool :=
  (65 ≤ ch.toNat && ch.toNat ≤ 90) || (97 ≤ ch.toNat && ch.toNat ≤ 122)

/- KH_TOKENIZER_SPECIAL_PUNCT (tokenizer.h): comma, single quote, the two
   braces, parentheses, brackets and newline. -/
def specialPunct (ch : Char) : Bool :=
  [',', Char.ofNat 39, Char.ofNat 123, Char.ofNat 125, '(', ')', '[', ']', '\n'].contains ch

/- g_unichar_isalpha / g_unichar_isdigit / g_unichar_ispunct restricted to
   the ASCII range, where the Unicode tables agree with ctype
   (g_unichar_ispunct also covers the ASCII symbol characters). Every
   input exercised below is ASCII. -/
def uAlpha (ch : Char) : Bool := isAsciiAlpha ch

def uDigit (ch : Char) : Bool := isAsciiDigit ch

def uPunct (ch : Char) : Bool :=
  (33 ≤ ch.toNat && ch.toNat ≤ 47) || (58 ≤ ch.toNat && ch.toNat ≤ 64)
    || (91 ≤ ch.toNat && ch.toNat ≤ 96) || (123 ≤ ch.toNat && ch.toNat ≤ 126)

/- Identifier continuation (tokenizer.c _tokenize_identifier): not a
   special punctuation character, and an underscore, dash, letter, digit
   or punctuation character. -/
def identCont (ch : Char) : Bool :=
  !specialPunct ch && (ch == '_' || ch == '-' || uAlpha ch || uDigit ch || uPunct ch)

/- Number suffix continuation (tokenizer.c _tokenize_number, second loop):
   isalpha or isdigit, consumed but discarded. -/
def numSuffixCont (ch : Char) : Bool := isAsciiAlpha ch || isAsciiDigit ch

/- _tokenize_number: greedy digits after the first character, then an
   alphanumeric suffix that is consumed but truncated away; the emitted
   value is the first character plus the digits. -/
def tkNum (c0 : Char) : Option (List Char) → Tok × Option (List Char)
  | none => (.number (String.mk [c0]), none)
  | some l =>
    let digits := l.takeWhile isAsciiDigit
    let l2 := (l.dropWhile isAsciiDigit).dropWhile numSuffixCont
    (.number (String.mk (c0 :: digits)), some l2)

/- _tokenize_identifier: the first character plus every continuation
   character. -/
def tkIdent (c0 : Char) : Option (List Char) → Tok × Option (List Char)
  | none => (.ident (String.mk [c0]), none)
  | some l => (.ident (String.mk (c0 :: l.takeWhile identCont)), some (l.dropWhile identCont))

/- The continuation-line whitespace skip inside _tokenize_string. -/
def skipWs : Option (List Char) → Option (List Char)
  | none => none
  | some l => some (l.dropWhile (fun ch => ch == ' ' || ch == '\t'))

/- _tokenize_string (tokenizer.c): loop until the peeked character is a
   double quote or EOF (or the peek fails); a backslash reads one more
   character and maps n r t to the control characters, a double quote to
   itself, a SINGLE QUOTE TO A DOUBLE QUOTE, a backslash to itself; a
   carriage return reads (and discards) one further character and falls
   through to the newline case, which appends a newline and swallows the
   spaces and tabs that follow; anything else is appended verbatim. A
   backslash immediately before EOF reaches g_unichar_to_utf8(EOF),
   modelled as fatal (none). One character is consumed per iteration, so
   the fuel never runs out when seeded with the input length plus one. -/
def tkStr : Nat → Option (List Char) → List Char → Option (List Char × Option (List Char))
  | 0, _, _ => none
  | fuel + 1, st, acc =>
    match peekChar st with
    | none => some (acc, st)
    | some none => some (acc, st)
    | some (some c) =>
      if c = Char.ofNat 34 then some (acc, st)
      else
        let st1 := match readChar st with
          | some (_, q) => q
          | none => none
        if c = Char.ofNat 92 then
          match readChar st1 with
          | none => none
          | some (none, _) => none
          | some (some e, st2) =>
            if e = 'n' then tkStr fuel st2 (acc ++ ['\n'])
            else if e = 'r' then tkStr fuel st2 (acc ++ ['\r'])
            else if e = 't' then tkStr fuel st2 (acc ++ ['\t'])
            else if e = Char.ofNat 34 then tkStr fuel st2 (acc ++ [Char.ofNat 34])
            else if e = Char.ofNat 39 then tkStr fuel st2 (acc ++ [Char.ofNat 34])
            else if e = Char.ofNat 92 then tkStr fuel st2 (acc ++ [Char.ofNat 92])
            else if e = '\r' then
              let st3 := match readChar st2 with
                | some (_, q) => q
                | none => none
              tkStr fuel (skipWs st3) (acc ++ ['\n'])
            else if e = '\n' then tkStr fuel (skipWs st2) (acc ++ ['\n'])
            else tkStr fuel st2 (acc ++ [e])
        else tkStr fuel st1 (acc ++ [c])

/- _tokenize_backquote_string: no escapes; a carriage return is dropped
   and the character read after it is appended instead (reading EOF there
   is the same g_unichar_to_utf8(EOF) garbage, modelled as fatal; a failed
   read leaves the carriage return to be appended). -/
def tkRawStr : Nat → Option (List Char) → List Char → Option (List Char × Option (List Char))
  | 0, _, _ => none
  | fuel + 1, st, acc =>
    match peekChar st with
    | none => some (acc, st)
    | some none => some (acc, st)
    | some (some c) =>
      if c = Char.ofNat 96 then some (acc, st)
      else
        let st1 := match readChar st with
          | some (_, q) => q
          | none => none
        if c = '\r' then
          match readChar st1 with
          | none => tkRawStr fuel none (acc ++ ['\r'])
          | some (none, _) => none
          | some (some e, st2) => tkRawStr fuel st2 (acc ++ [e])
        else tkRawStr fuel st1 (acc ++ [c])

def stLen : Option (List Char) → Nat
  | none => 0
  | some l => l.length

/- kh_tokenizer_next (tokenizer.c), for string-backed input. The fuel
   only bounds the whitespace retry loop (goto retry), which consumes one
   character per round. In the comment branch, the source calls _consume
   immediately after reading the hash, although no peek is pending: the
   g_assert(peek_avail) inside _consume is violated (an assertion-enabled
   build aborts on every comment); with assertions disabled _consume just
   reads, so the character right after the hash is consumed
   unconditionally, then characters are consumed while the NEXT character
   is not a newline or EOF, and a newline token is emitted with the
   terminating newline left unconsumed in the input. -/
def kh_tokenizer_next : Nat → Option (List Char) → TkOut
  | 0, _ => .fatal
  | fuel + 1, st =>
    match readChar st with
    | none => .readFail
    | some (none, st1) => .tok .eof st1
    | some (some c, st1) =>
      if c = '#' then
        let st2 := match readChar st1 with
          | some (_, q) => q
          | none => none
        let st3 := match st2 with
          | none => none
          | some l => some (l.dropWhile (fun ch => ch ≠ '\n'))
        .tok (.punct '\n') st3
      else if c = '-' &&
          (match peekChar st1 with
            | some (some nc) => isAsciiDigit nc
            | _ => false) then
        let r := tkNum c st1
        .tok r.1 r.2
      else if specialPunct c then .tok (.punct c) st1
      else if isAsciiDigit c then
        let r := tkNum c st1
        .tok r.1 r.2
      else if c = Char.ofNat 34 then
        match tkStr (stLen st1 + 1) st1 [] with
        | none => .fatal
        | some (content, st2) =>
          match readChar st2 with
          | none => .readFail
          | some (none, _) => .errMissingDelim
          | some (some q, st3) =>
            if q = Char.ofNat 34 then .tok (.strTok (String.mk content)) st3
            else .errMissingDelim
      else if c = Char.ofNat 96 then
        match tkRawStr (stLen st1 + 1) st1 [] with
        | none => .fatal
        | some (content, st2) =>
          match readChar st2 with
          | none => .readFail
          | some (none, _) => .errMissingDelim
          | some (some q, st3) =>
            if q = Char.ofNat 96 then .tok (.strTok (String.mk content)) st3
            else .errMissingDelim
      else if c = ' ' || c = '\t' || c = '\r' then kh_tokenizer_next fuel st1
      else if uAlpha c || uPunct c then
        let r := tkIdent c st1
        .tok r.1 r.2
      else .errUnexpectedChar

/- Repeatedly fetch tokens until the EOF token; none on any failure. -/
def tokenList : Nat → Option (List Char) → Option (List Tok)
  | 0, _ => none
  | fuel + 1, st =>
    match kh_tokenizer_next (fuel + 1) st with
    | .tok .eof _ => some [.eof]
    | .tok t st1 => (tokenList fuel st1).map (t :: ·)
    | _ => none

/- ------------------------------------------------------------------ -/
/- Symbol creation and interning (value.c kh_symbol_new together with
   GLib g_intern_string). Addresses model pointer identity: every
   GC_MALLOC allocation has a fresh address; the interned name is the
   canonical address of the string, stable for the process lifetime. -/

structure SymHeap where
  nextAddr : Nat
  interned : List String
deriving Repr, DecidableEq

/- A KhSymbol value as far as identity is observable: its own address and
   the address of its interned name string. -/
structure SymObj where
  addr : Nat
  namePtr : Nat
deriving Repr, DecidableEq

def findStr : List String → String → Option Nat
  | [], _ => none
  | t :: rest, s => if t = s then some 0 else (findStr rest s).map (· + 1)

/- g_intern_string: return the canonical instance of the string, adding it
   to the process-wide table on first use. -/
def internStr (tab : List String) (s : String) : Nat × List String :=
  match findStr tab s with
  | some i => (i, tab)
  | none => (tab.length, tab ++ [s])

/- kh_symbol_new (value.c): _KH_NEW_BASIC allocates a NEW KhSymbol on
   every call; only its value field is interned. -/
def kh_symbol_new (st : SymHeap) (s : String) : SymObj × SymHeap :=
  let it := internStr st.interned s
  ({ addr := st.nextAddr, namePtr := it.1 },
   { nextAddr := st.nextAddr + 1, interned := it.2 })

def symHeap0 : SymHeap := { nextAddr := 0, interned := [] }

/- Any further sequence of symbol creations elsewhere in the process. -/
def runSymNews : SymHeap → List String → SymHeap
  | st, [] => st
  | st, s :: rest => runSymNews (kh_symbol_new st s).2 rest

/- ------------------------------------------------------------------ -/
/- Observers and auxiliary notions used by the statements below. -/

def stepIsFail : Step Val → Bool
  | .fail _ => true
  | _ => false

/- The kind symbol of the error recorded in a failed step. -/
def stepErrKind : Step Val → Option String
  | .fail c =>
    match c.err with
    | some (.cell (.sym kind) _) => some kind
    | _ => none
  | _ => none

/- The error value recorded in a failed step. -/
def stepErr : Step Val → Option Val
  | .fail c => c.err
  | _ => none

/- Heap well-formedness: the current scope exists and every parent link
   points to a strictly earlier scope. This holds by construction in every
   reachable context, because scopes are only ever created as children of
   already existing scopes. -/
def scopesWF : Nat → List ScopeData → Bool
  | _, [] => true
  | i, sd :: rest =>
    (match sd.parent with
     | none => true
     | some p => decide (p < i)) && scopesWF (i + 1) rest

def ctxWF (c : Ctx) : Bool :=
  decide (c.cur < c.scopes.length) && scopesWF 0 c.scopes

/- An effect-free binding value expression: a literal evaluates to itself,
   a quoted form unwraps, and a symbol is looked up in the chain of the
   CURRENT scope; each of these leaves the context unchanged when it
   succeeds. -/
def pureEval (c : Ctx) : Val → Option Val
  | .sym s => scopeLookup c c.cur s
  | .quoted v => some v
  | .cell _ _ => none
  | atomic => some atomic

/- The binding pairs of a let bindings list, with every value evaluated by
   pureEval against the same outer context. -/
def bindingValsPure (c : Ctx) : Val → Option (List (String × Val))
  | .nil => some []
  | .cell (.cell nameV (.cell e _)) rest =>
    match strOrSymName nameV, pureEval c e, bindingValsPure c rest with
    | some n, some v, some tl => some ((n, v) :: tl)
    | _, _, _ => none
  | _ => none

/- The context in which a let body runs: one fresh scope, child of the
   current scope, holding the binding pairs (scopeAdd conses, so the
   resulting table lists the pairs in reverse), and made current. -/
def mkLetCtx (c : Ctx) (pairs : List (String × Val)) : Ctx :=
  { c with
    scopes := c.scopes ++ [⟨some c.cur, pairs.reverse⟩],
    cur := c.scopes.length }

/- A context extended with one extra scope at the end of the heap; the
   current scope is unchanged (this is the shape of the context while the
   let binding loop runs). -/
def extCtx (c : Ctx) (par : Option Nat) (tbl : List (String × Val)) : Ctx :=
  { c with scopes := c.scopes ++ [⟨par, tbl⟩] }

/- The number of bindings in a let bindings list (used to budget fuel). -/
def bindsLen : Val → Nat
  | .cell _ r => bindsLen r + 1
  | _ => 0

/- ------------------------------------------------------------------ -/
/- Theorems. -/

/-- C4: the claim states that the builtin + returns the sum of the signed
64-bit values of its int arguments, with 64-bit two-complement
wrap-around. The code (builtins.c add) declares the accumulator as a C
int, so every addition is truncated to 32 bits although the operands are
64-bit longs: (+ 2147483648) evaluates to -2147483648 and
(+ 2000000000 2000000000) evaluates to -294967296, although both exact
sums fit comfortably in 64 bits. This theorem evaluates the embedded code
at those failing inputs. -/
theorem C4_add_truncates_to_32_bits :
    kh_eval 9 initialCtx (.cell (.sym "+") (.cell (.int 2147483648) .nil))
      = .ok (.int (-2147483648)) initialCtx
    ∧ kh_eval 9 initialCtx
        (.cell (.sym "+") (.cell (.int 2000000000) (.cell (.int 2000000000) .nil)))
      = .ok (.int (-294967296)) initialCtx :=
  ⟨rfl, rfl⟩

/-- C2: the claim states that def-method accepts exactly 4 arguments and
that a 4-argument call does not fail with invalid-call. But
_register_builtins (builtins.c) registers def-method with min_argc =
max_argc = 3, while the def_method implementation reads argv[3]: every
4-argument call (def-method type name (params) body) is rejected by the
arity check in kh_apply with an invalid-call error before the
implementation or any registration runs. This theorem evaluates the
embedded code at such a call. -/
theorem C2_def_method_four_args_rejected :
    kh_eval 9 initialCtx
      (.cell (.sym "def-method")
        (.cell (.sym "T")
          (.cell (.sym "greet")
            (.cell (.cell (.sym "self") .nil)
              (.cell .nil .nil)))))
      = .fail (setError initialCtx "invalid-call"
          "Called \"def-method\" with 4 arguments, expected 3") :=
  rfl

/-- C5: the claim states that after a hash the tokenizer consumes every
character up to AND INCLUDING the next newline and emits exactly one
newline token, the terminator producing no further token. In the code
(tokenizer.c kh_tokenizer_next, hash branch) the character immediately
after the hash is consumed unconditionally (by a _consume call that also
violates the g_assert(peek_avail) assertion inside _consume), the
following characters are consumed only while the NEXT character is not a
newline, and the terminating newline is left in the input, so the next
call emits a second newline token. Evaluating the embedded tokenizer:
the input #a(newline)x yields TWO newline tokens before the identifier,
and in #(newline)x the newline is swallowed as the character after the
hash and the whole following line is consumed as part of the comment. -/
theorem C5_comment_token_stream :
    tokenList 99 (some ("#a\nx".toList))
      = some [.punct '\n', .punct '\n', .ident "x", .eof]
    ∧ tokenList 99 (some ("#\nx".toList)) = some [.punct '\n', .eof] :=
  ⟨rfl, rfl⟩

/-- C9: inside a double-quoted string literal the escape sequence
backslash single-quote produces a DOUBLE-quote character (code 34) in the
token value, not a single quote: _tokenize_string (tokenizer.c) maps the
escaped single quote (code 39) to code 34. The first conjunct states this
for every input continuation and every accumulated prefix; the second
evaluates a whole string literal token. -/
theorem C9_escaped_single_quote_yields_double_quote (fuel : Nat) (rest acc : List Char) :
    tkStr (fuel + 1) (some (Char.ofNat 92 :: Char.ofNat 39 :: rest)) acc
      = tkStr fuel (some rest) (acc ++ [Char.ofNat 34])
    ∧ kh_tokenizer_next 9 (some ("\"a\\'b\"".toList))
      = .tok (.strTok "a\"b") (some []) :=
  ⟨rfl, rfl⟩

/-- C10: the builtin rest (builtins.c) returns the right of a cell and nil
for EVERY non-cell argument (nil, ints, strings, symbols, records); it
never sets an error: for every argument the native implementation returns
ok with the context unchanged. -/
theorem C10_rest_total_non_cell_nil (fuel : Nat) (c : Ctx) (v : Val)
    (h : isCell v = false) :
    natImpl (fuel + 1) c .rest [v] = .ok .nil c
    ∧ ∀ w : Val, ∃ res : Val, natImpl (fuel + 1) c .rest [w] = .ok res c := by
  constructor
  · cases v <;> first | rfl | simp [isCell] at h
  · intro w
    cases w with
    | cell l r => exact ⟨r, rfl⟩
    | _ => exact ⟨.nil, rfl⟩

/-- C10 witness: rest applied to the int 5 returns nil without error. -/
theorem C10_witness :
    natImpl 1 initialCtx .rest [Val.int 5] = .ok .nil initialCtx :=
  (C10_rest_total_non_cell_nil 0 initialCtx (.int 5) rfl).1

/-- C3 counterexample: the claim states that two symbol values created
with the same name are pointer-identical. kh_symbol_new (value.c)
allocates a NEW KhSymbol on every call and only interns the name string:
creating the symbol x twice yields two distinct allocations (addresses 0
and 1), so the two symbol values are not identical. -/
theorem C3_two_symbol_values_distinct :
    (kh_symbol_new symHeap0 "x").1 ≠ (kh_symbol_new (kh_symbol_new symHeap0 "x").2 "x").1 := by
  decide

/- Interning stability lemmas for the amended C3. -/

theorem findStr_append_left {tab : List String} {s : String} {p : Nat}
    (h : findStr tab s = some p) (l : List String) :
    findStr (tab ++ l) s = some p := by
  induction tab generalizing p with
  | nil => simp [findStr] at h
  | cons t rest ih =>
    by_cases ht : t = s
    · simp [findStr, ht] at h ⊢
      exact h
    · simp only [findStr, List.cons_append, List.append_eq, if_neg ht] at h ⊢
      obtain ⟨q, hq, hqp⟩ := Option.map_eq_some'.mp h
      rw [ih hq]
      simp [hqp]

theorem findStr_append_self {tab : List String} {s : String}
    (h : findStr tab s = none) :
    findStr (tab ++ [s]) s = some tab.length := by
  induction tab with
  | nil => simp [findStr]
  | cons t rest ih =>
    by_cases ht : t = s
    · simp [findStr, ht] at h
    · simp only [findStr, List.cons_append, List.append_eq, if_neg ht] at h ⊢
      rw [ih (by simpa using h)]
      simp [List.length_cons]

theorem internStr_finds (tab : List String) (s : String) :
    findStr (internStr tab s).2 s = some (internStr tab s).1 := by
  unfold internStr
  cases h : findStr tab s with
  | some i => simpa using h
  | none => simpa using findStr_append_self h

theorem findStr_internStr_stable {tab : List String} {s : String} {p : Nat}
    (h : findStr tab s = some p) (u : String) :
    findStr (internStr tab u).2 s = some p := by
  unfold internStr
  cases hu : findStr tab u with
  | some i => simpa using h
  | none => simpa using findStr_append_left h [u]

theorem findStr_runSymNews_stable {st : SymHeap} {s : String} {p : Nat}
    (h : findStr st.interned s = some p) (ops : List String) :
    findStr (runSymNews st ops).interned s = some p := by
  induction ops generalizing st with
  | nil => exact h
  | cons o rest ih => exact ih (findStr_internStr_stable h o)

theorem runSymNews_nextAddr_le (st : SymHeap) (ops : List String) :
    st.nextAddr ≤ (runSymNews st ops).nextAddr := by
  induction ops generalizing st with
  | nil => exact Nat.le_refl _
  | cons o rest ih =>
    exact Nat.le_trans (Nat.le_succ _) (ih (kh_symbol_new st o).2)

/-- C3 amended: within one process, any two symbol values created with the
same name (here: one created now, and one created after any further
sequence of symbol creations) share their interned NAME pointer, and
symbols with the same name therefore compare equal by their name identity;
but the symbol value objects themselves are distinct allocations, never
pointer-equal. -/
theorem C3_same_name_shares_interned_name (st : SymHeap) (s : String) (ops : List String) :
    ((kh_symbol_new st s).1.namePtr
        = (kh_symbol_new (runSymNews (kh_symbol_new st s).2 ops) s).1.namePtr)
    ∧ ((kh_symbol_new st s).1.addr
        ≠ (kh_symbol_new (runSymNews (kh_symbol_new st s).2 ops) s).1.addr) := by
  have h1 : findStr (kh_symbol_new st s).2.interned s
      = some (kh_symbol_new st s).1.namePtr := internStr_finds st.interned s
  have h2 := findStr_runSymNews_stable h1 ops
  constructor
  · simp only [kh_symbol_new, internStr] at h2 ⊢
    rw [h2]
  · have hle := runSymNews_nextAddr_le (kh_symbol_new st s).2 ops
    simp only [kh_symbol_new] at hle ⊢
    omega

/- Helper lemmas for C7. -/

theorem getD_mem_of_lt {l : List String} {j : Nat} (h : j < l.length) :
    l.getD j "" ∈ l := by
  induction l generalizing j with
  | nil => simp at h
  | cons a as ih =>
    cases j with
    | zero => simp [List.getD]
    | succ j =>
      have := ih (j := j) (by simpa using h)
      simp only [List.getD, List.get?_cons_succ] at this ⊢
      exact List.mem_cons_of_mem a this

theorem recordLookup_at {keys : List String} {vals : List Val} {i : Nat}
    (hnodup : keys.Nodup) (hlen : vals.length = keys.length) (hi : i < keys.length) :
    recordLookup keys vals (keys.getD i "") = some (vals.getD i .nil) := by
  induction keys generalizing vals i with
  | nil => simp at hi
  | cons k ks ih =>
    cases vals with
    | nil => simp at hlen
    | cons v vs =>
      cases i with
      | zero => simp [recordLookup, List.getD]
      | succ j =>
        have hj : j < ks.length := by simpa using hi
        have hk : k ≠ ks.getD j "" := by
          intro he
          exact (List.nodup_cons.mp hnodup).1 (he ▸ getD_mem_of_lt hj)
        have hgd : (k :: ks).getD (j + 1) "" = ks.getD j "" := by
          simp [List.getD]
        have hvd : (v :: vs).getD (j + 1) Val.nil = vs.getD j Val.nil := by
          simp [List.getD]
        rw [hgd, hvd]
        simp only [recordLookup, if_neg hk]
        exact ih (List.nodup_cons.mp hnodup).2 (by simpa using hlen) hj

/-- C7: for every record type with distinct keys and a make call providing
exactly one value per key, the builtin make (builtins.c) succeeds and
builds the record with the values in declared order
(kh_record_new_from_values, record.c), and looking up the key at any
declared position (kh_record_get, record.c, modelled by recordLookup over
the key and value arrays) returns exactly the value provided at that
position. -/
theorem C7_make_get_key_roundtrip (fuel : Nat) (c : Ctx) (tyId : Nat)
    (keys : List String) (vals : List Val) (i : Nat)
    (hnodup : keys.Nodup) (hlen : vals.length = keys.length) (hi : i < keys.length) :
    natImpl (fuel + 1) c .make (Val.recordType tyId keys :: vals)
      = .ok (.record tyId keys vals) c
    ∧ recordLookup keys vals (keys.getD i "") = some (vals.getD i Val.nil) := by
  constructor
  · have hrec : kh_record_new_from_values tyId keys vals = .record tyId keys vals := by
      unfold kh_record_new_from_values
      rw [← hlen, List.take_length, Nat.sub_self, List.replicate_zero, List.append_nil]
    simp only [natImpl, if_neg (by omega : ¬vals.length ≠ keys.length), hrec]
  · exact recordLookup_at hnodup hlen hi

/-- C7 witness: a two-key record type with values 3 and 4; make succeeds
and the key at position 0 yields 3. -/
theorem C7_witness :
    natImpl 1 initialCtx .make
        (Val.recordType 0 ["x", "y"] :: [Val.int 3, Val.int 4])
      = .ok (.record 0 ["x", "y"] [Val.int 3, Val.int 4]) initialCtx
    ∧ recordLookup ["x", "y"] [Val.int 3, Val.int 4] ((["x", "y"]).getD 0 "")
      = some (([Val.int 3, Val.int 4]).getD 0 Val.nil) :=
  C7_make_get_key_roundtrip 0 initialCtx 0 ["x", "y"] [Val.int 3, Val.int 4] 0
    (by decide) (by decide) (by decide)

/-- C6: for every function and argument list whose length falls outside
[min, max] (max = none is the LONG_MAX "unbounded" sentinel), once step 1
of kh_apply has produced the argument values (immediately for a direct
function, via evalArgs otherwise), kh_apply fails with an invalid-call
error whose message shape is exact, range, or "N or more" according to
whether max equals min, max is the sentinel, or neither; the resulting
context is the post-argument-evaluation context with only the error slot
changed, so the function body is not evaluated and has no effect. -/
theorem C6_arity_invalid_call (fuel : Nat) (c c1 : Ctx) (name : String)
    (nb : Option Builtin) (body : Val) (minA : Nat) (maxA : Option Nat)
    (argnames : List String) (sid : Nat) (isD : Bool) (argv argv2 : List Val)
    (hstep1 : (if isD then Step.ok argv c else evalArgs fuel c argv) = Step.ok argv2 c1)
    (hbad : (decide (argv.length < minA)
        || (match maxA with | some m => decide (m < argv.length) | none => false)) = true) :
    kh_apply (fuel + 1) c (.func name nb body minA maxA argnames sid isD) argv =
      .fail (setError c1 "invalid-call"
        (match maxA with
         | none => "Called " ++ name ++ " with " ++ toString argv.length
             ++ " arguments, expected " ++ toString minA ++ " or more"
         | some m =>
           if minA = m then
             "Called " ++ name ++ " with " ++ toString argv.length
               ++ " arguments, expected " ++ toString minA
           else
             "Called " ++ name ++ " with " ++ toString argv.length
               ++ " arguments, expected between " ++ toString minA ++ " and "
               ++ toString m)) := by
  simp only [kh_apply]
  rw [hstep1]
  simp only [hbad]
  cases maxA with
  | none => simp
  | some m =>
    by_cases hm : minA = m <;> simp [hm]

/-- C6 witness: calling the registered + (min 1, unbounded max) with zero
arguments fails with the "1 or more" message. -/
theorem C6_witness :
    kh_apply 2 initialCtx (Val.func "\"+\"" (some .add) .nil 1 none [] 0 false) []
      = .fail (setError initialCtx "invalid-call"
          "Called \"+\" with 0 arguments, expected 1 or more") :=
  C6_arity_invalid_call 1 initialCtx initialCtx "\"+\"" (some .add) .nil 1 none [] 0
    false [] [] rfl rfl

/-- C8: for every cell form (with a proper, nil-terminated argument tail,
as the parser produces; KH_ITERATE is a fatal checked cast on dotted
forms) whose head position evaluates to a non-function value: a
single-element form returns that value unchanged, and a longer form fails
with a not-func error carrying the inspect string of the head value
(eval.c kh_eval). -/
theorem C8_nonfunc_head (fuel : Nat) (c c1 : Ctx) (l r head : Val)
    (hh : kh_eval fuel c l = .ok head c1)
    (hnf : isFunc head = false)
    (hr : isList r = true) :
    kh_eval (fuel + 1) c (.cell l r)
      = (match r with
         | .nil => Step.ok head c1
         | _ => .fail (setError c1 "not-func"
             ("Tried to evaluate " ++ kh_inspect head ++ " as a function"))) := by
  cases r with
  | nil => simp [kh_eval, hh, kh_list_length, hnf]
  | cell rl rr =>
    cases hm : kh_list_length rr with
    | none => simp [isList, kh_list_length, hm] at hr
    | some m => simp [kh_eval, hh, kh_list_length, hm, hnf]
  | _ => simp [isList, kh_list_length] at hr

/-- C8 witness: the single-element form (7) evaluates to 7 itself. -/
theorem C8_witness :
    kh_eval 2 initialCtx (.cell (.int 7) .nil) = .ok (.int 7) initialCtx :=
  C8_nonfunc_head 1 initialCtx initialCtx (.int 7) .nil (.int 7) rfl rfl rfl

/- Helper lemmas for C1. -/

theorem modify_append_last {α : Type} (l : List α) (x : α) (f : α → α) :
    (l ++ [x]).modify f l.length = l ++ [f x] := by
  induction l with
  | nil => rfl
  | cons a as ih =>
    simp only [List.cons_append, List.length_cons, List.modify, List.modifyTailIdx,
      List.append_eq] at ih ⊢
    rw [ih]

theorem scopesWF_get {l : List ScopeData} {k i : Nat} {sd : ScopeData} {p : Nat}
    (hw : scopesWF k l = true) (hg : l.get? i = some sd) (hp : sd.parent = some p) :
    p < k + i := by
  induction l generalizing k i with
  | nil => simp at hg
  | cons a as ih =>
    rw [scopesWF, Bool.and_eq_true] at hw
    cases i with
    | zero =>
      simp only [List.get?] at hg
      cases hg
      rw [hp] at hw
      simpa using hw.1
    | succ j =>
      have hg2 : as.get? j = some sd := by simpa using hg
      have := ih hw.2 hg2
      omega

theorem lookupChain_ext (c : Ctx) (par : Option Nat) (tbl : List (String × Val))
    (fuel sid : Nat) (name : String)
    (hw : scopesWF 0 c.scopes = true) (hsid : sid < c.scopes.length) :
    lookupChain (extCtx c par tbl) fuel sid name = lookupChain c fuel sid name := by
  induction fuel generalizing sid with
  | zero => rfl
  | succ fuel ih =>
    have hget : (extCtx c par tbl).scopes.get? sid = c.scopes.get? sid := by
      simp only [extCtx, List.get?_eq_getElem?]
      exact List.getElem?_append_left hsid
    rw [lookupChain, lookupChain, hget]
    cases hg : c.scopes.get? sid with
    | none => rfl
    | some sd =>
      dsimp only
      cases tableLookup sd.table name with
      | some v => rfl
      | none =>
        dsimp only
        cases hp : sd.parent with
        | none => rfl
        | some p =>
          dsimp only
          have hplt : p < c.scopes.length :=
            Nat.lt_trans (by simpa using scopesWF_get hw hg hp) hsid
          exact ih p hplt

theorem kh_eval_pure_ext (c : Ctx) (par : Option Nat) (tbl : List (String × Val))
    (fuel : Nat) (e v : Val)
    (hw : ctxWF c = true) (hpe : pureEval c e = some v) :
    kh_eval (fuel + 1) (extCtx c par tbl) e = .ok v (extCtx c par tbl) := by
  rw [ctxWF, Bool.and_eq_true, decide_eq_true_eq] at hw
  cases e with
  | sym sname =>
    have hlk : scopeLookup c c.cur sname = some v := hpe
    have hext : scopeLookup (extCtx c par tbl) (extCtx c par tbl).cur sname = some v := by
      have hcur : (extCtx c par tbl).cur = c.cur := rfl
      rw [hcur, scopeLookup, lookupChain_ext c par tbl (c.cur + 1) c.cur sname hw.2 hw.1]
      exact hlk
    simp [kh_eval, hext]
  | quoted inner =>
    have hv : inner = v := by simpa [pureEval] using hpe
    simp [kh_eval, hv]
  | cell l r => simp [pureEval] at hpe
  | nil =>
    have hv : Val.nil = v := by simpa [pureEval] using hpe
    simp [kh_eval, ← hv]
  | int n =>
    have hv : Val.int n = v := by simpa [pureEval] using hpe
    simp [kh_eval, ← hv]
  | str sv =>
    have hv : Val.str sv = v := by simpa [pureEval] using hpe
    simp [kh_eval, ← hv]
  | func a b d e2 f g h i =>
    have hv : Val.func a b d e2 f g h i = v := by simpa [pureEval] using hpe
    simp [kh_eval, ← hv]
  | recordType id keys =>
    have hv : Val.recordType id keys = v := by simpa [pureEval] using hpe
    simp [kh_eval, ← hv]
  | record tyId keys vals =>
    have hv : Val.record tyId keys vals = v := by simpa [pureEval] using hpe
    simp [kh_eval, ← hv]

theorem letLoop_pure (c : Ctx) (k : Nat) (binds : Val) (pairs tbl : List (String × Val))
    (hw : ctxWF c = true) (hb : bindingValsPure c binds = some pairs) :
    letLoop (k + bindsLen binds + 1) (extCtx c (some c.cur) tbl) c.scopes.length binds
      = .ok () (extCtx c (some c.cur) (pairs.reverse ++ tbl)) := by
  induction pairs generalizing binds tbl with
  | nil =>
    cases binds with
    | nil => rfl
    | cell elem rest =>
      exfalso
      cases elem with
      | cell nameV elemR =>
        cases elemR with
        | cell e tailv =>
          rw [bindingValsPure] at hb
          cases hsn : strOrSymName nameV with
          | none => rw [hsn] at hb; simp at hb
          | some n =>
            cases hpv : pureEval c e with
            | none => rw [hsn, hpv] at hb; simp at hb
            | some v =>
              cases hbv : bindingValsPure c rest with
              | none => rw [hsn, hpv, hbv] at hb; simp at hb
              | some tl0 => rw [hsn, hpv, hbv] at hb; simp at hb
        | _ => simp [bindingValsPure] at hb
      | _ => simp [bindingValsPure] at hb
    | _ => simp [bindingValsPure] at hb
  | cons p tl ih =>
    cases binds with
    | cell elem rest =>
      cases elem with
      | cell nameV elemR =>
        cases elemR with
        | cell e tailv =>
          rw [bindingValsPure] at hb
          cases hsn : strOrSymName nameV with
          | none => rw [hsn] at hb; simp at hb
          | some n =>
            cases hpv : pureEval c e with
            | none => rw [hsn, hpv] at hb; simp at hb
            | some v =>
              cases hbv : bindingValsPure c rest with
              | none => rw [hsn, hpv, hbv] at hb; simp at hb
              | some tl0 =>
                rw [hsn, hpv, hbv] at hb
                simp only [Option.some.injEq, List.cons.injEq] at hb
                obtain ⟨hp, htl⟩ := hb
                subst hp
                subst htl
                have hadd : scopeAdd (extCtx c (some c.cur) tbl) c.scopes.length n v
                    = extCtx c (some c.cur) ((n, v) :: tbl) := by
                  simp [scopeAdd, extCtx, modify_append_last]
                have hfuel : bindsLen (Val.cell (Val.cell nameV (Val.cell e tailv)) rest)
                    = bindsLen rest + 1 := rfl
                rw [hfuel]
                have heval := kh_eval_pure_ext c (some c.cur) tbl (k + bindsLen rest) e v hw hpv
                rw [letLoop, hsn]
                dsimp only
                rw [show k + (bindsLen rest + 1) = k + bindsLen rest + 1 from
                  (Nat.add_assoc k (bindsLen rest) 1).symm]
                rw [heval]
                dsimp only
                rw [hadd]
                rw [ih rest ((n, v) :: tbl) hbv]
                simp
        | _ => simp [bindingValsPure] at hb
      | _ => simp [bindingValsPure] at hb
    | _ => simp [bindingValsPure] at hb

/-- C1 counterexample: the claim says each binding is visible while the
values of subsequent bindings of the same let are evaluated, so
(let ((a 1) (b a)) b) should bind b to 1 and return 1. In the code
(builtins.c let) every binding value is evaluated with kh_eval against
the context whose current scope is still the OUTER scope - the let scope
only becomes current after the loop - so the value expression a of the
second binding is unbound (the outer chain of initialCtx has no a), the
failed result is discarded, and the body b then fails with
undefined-variable. -/
theorem C1_counterexample_later_binding_invisible :
    stepErr (kh_eval 9 initialCtx
      (.cell (.sym "let")
        (.cell (.cell (.cell (.sym "a") (.cell (.int 1) .nil))
                      (.cell (.cell (.sym "b") (.cell (.sym "a") .nil)) .nil))
          (.cell (.sym "b") .nil))))
      = some (errVal "undefined-variable" "b") :=
  rfl

/-- C1 amended: in a let form the binding values are evaluated in source
order, but each value expression is evaluated in the scope chain
ENCLOSING the let (the let scope is not yet current), so earlier bindings
of the same let are not visible to the value expressions of subsequent
bindings (nor to sibling scopes); the body is then evaluated in the new
scope, a child of the enclosing scope, containing all the bindings, and on
success the previous scope is restored. Stated for effect-free binding
values (literals, quoted forms and symbols, captured by pureEval against
the outer context), for any well-formed context. -/
theorem C1_let_binding_values_use_enclosing_scope (k : Nat) (c c3 : Ctx)
    (binds body v : Val) (pairs : List (String × Val)) (sd : ScopeData) (p : Nat)
    (hwf : ctxWF c = true)
    (hb : bindingValsPure c binds = some pairs)
    (hbody : kh_eval (k + bindsLen binds + 1) (mkLetCtx c pairs) body = .ok v c3)
    (hsd : c3.scopes.get? c3.cur = some sd)
    (hp : sd.parent = some p) :
    natImpl (k + bindsLen binds + 2) c .letB [binds, body]
      = .ok v { c3 with cur := p } := by
  have hloop := letLoop_pure c k binds pairs [] hwf hb
  rw [List.append_nil] at hloop
  rw [natImpl]
  dsimp only
  rw [show (scopeNew c (some c.cur)).2 = extCtx c (some c.cur) [] from rfl]
  rw [hloop]
  dsimp only
  rw [show ({ extCtx c (some c.cur) pairs.reverse with cur := c.scopes.length } : Ctx)
      = mkLetCtx c pairs from rfl]
  rw [hbody]
  dsimp only
  rw [hsd]
  dsimp only
  rw [hp]

/-- C1 witness: (let ((a 1)) a) returns 1, evaluated in the let scope,
with the previous scope restored afterwards. -/
theorem C1_witness :
    natImpl 3 initialCtx .letB
        [Val.cell (.cell (.sym "a") (.cell (.int 1) .nil)) .nil, .sym "a"]
      = .ok (.int 1) { mkLetCtx initialCtx [("a", Val.int 1)] with cur := 1 } :=
  C1_let_binding_values_use_enclosing_scope 0 initialCtx
    (mkLetCtx initialCtx [("a", Val.int 1)])
    (Val.cell (.cell (.sym "a") (.cell (.int 1) .nil)) .nil) (.sym "a") (.int 1)
    [("a", Val.int 1)] ⟨some 1, [("a", Val.int 1)]⟩ 1 rfl rfl rfl rfl rfl

end Scarab
